import Mathlib

/-!
Verification of the frame-relay demo (server.py / client.py).

The server keeps a single latest-frame slot (`_latest_frame_bytes`,
`_latest_frame_id`) plus byte/message counters, all updated under locks in
the `/ws/stream` receive loop; the `/ws/view` endpoint polls the slot and
pushes the frame to a viewer only when the frame id changed.  The client
keeps a bounded `asyncio.Queue` of encoded frames with a non-blocking
drop-oldest enqueue policy.  Below, each piece of shared state becomes a
field of an explicit state record and each loop iteration becomes a pure
step function; asyncio interleavings become lists of events folded over the
step function.
-/

namespace FrameRelay

/-- A binary frame payload (an opaque byte buffer, e.g. one encoded JPEG). -/
abbrev Bytes := List Nat

/-- The server's module-level shared state in `server.py`:
`_latest_frame_bytes`, `_latest_frame_id`, `_network_total_bytes`,
`_recv_total_count` (lines 43-51). -/
structure ServerState where
  latest_frame_bytes : Option Bytes
  latest_frame_id : Nat
  network_total_bytes : Nat
  recv_total_count : Nat
deriving Repr, DecidableEq

/-- Initial server state: no frame yet, all counters zero (server.py
lines 44-51). -/
def initState : ServerState :=
  { latest_frame_bytes := none
    latest_frame_id := 0
    network_total_bytes := 0
    recv_total_count := 0 }

/-- One iteration of the `ws_stream` receive loop on payload `data`
(server.py lines 60-71): overwrite the latest-frame slot, increment the
frame id, and accumulate the byte and message counters. -/
def recvFrame (s : ServerState) (data : Bytes) : ServerState :=
  { latest_frame_bytes := some data
    latest_frame_id := s.latest_frame_id + 1
    network_total_bytes := s.network_total_bytes + data.length
    recv_total_count := s.recv_total_count + 1 }

/-- Processing a whole sequence of incoming frames on the stream endpoint. -/
def recvFrames (s : ServerState) (ds : List Bytes) : ServerState :=
  ds.foldl recvFrame s

/-- Reading the latest-frame slot under `_latest_lock` (the snapshot taken
at server.py lines 97-99 and 146-150): returns the current bytes (or `none`
if nothing has ever been set) together with the current frame id. -/
def slotGet (s : ServerState) : Option Bytes × Nat :=
  (s.latest_frame_bytes, s.latest_frame_id)

theorem recvFrames_nil (s : ServerState) : recvFrames s [] = s := rfl

theorem recvFrames_cons (s : ServerState) (d : Bytes) (ds : List Bytes) :
    recvFrames s (d :: ds) = recvFrames (recvFrame s d) ds := rfl

theorem recvFrames_id (s : ServerState) (ds : List Bytes) :
    (recvFrames s ds).latest_frame_id = s.latest_frame_id + ds.length := by
  induction ds generalizing s with
  | nil => simp [recvFrames]
  | cons d ds ih =>
      rw [recvFrames_cons, ih]
      simp [recvFrame]
      omega

theorem recvFrames_bytes (s : ServerState) (ds : List Bytes) (h : ds ≠ []) :
    (recvFrames s ds).latest_frame_bytes = some (ds.getLast h) := by
  induction ds generalizing s with
  | nil => exact absurd rfl h
  | cons d ds ih =>
      cases ds with
      | nil => rfl
      | cons d2 ds2 =>
          rw [recvFrames_cons, ih (recvFrame s d) (by simp)]
          simp [List.getLast_cons]

theorem recvFrames_recv_count (s : ServerState) (ds : List Bytes) :
    (recvFrames s ds).recv_total_count = s.recv_total_count + ds.length := by
  induction ds generalizing s with
  | nil => simp [recvFrames]
  | cons d ds ih =>
      rw [recvFrames_cons, ih]
      simp [recvFrame]
      omega

theorem recvFrames_net_bytes (s : ServerState) (ds : List Bytes) :
    (recvFrames s ds).network_total_bytes
      = s.network_total_bytes + (ds.map List.length).sum := by
  induction ds generalizing s with
  | nil => simp [recvFrames]
  | cons d ds ih =>
      rw [recvFrames_cons, ih]
      simp [recvFrame]
      omega

/-- C1: after the stream endpoint has received N ≥ 1 frames, the
latest-frame slot holds exactly the Nth frame's bytes paired with
sequence id N (1-indexed), never an earlier frame's bytes or id. -/
theorem latest_slot_holds_nth_frame (ds : List Bytes) (h : ds ≠ []) :
    (recvFrames initState ds).latest_frame_bytes = some (ds.getLast h) ∧
    (recvFrames initState ds).latest_frame_id = ds.length := by
  refine ⟨recvFrames_bytes initState ds h, ?_⟩
  rw [recvFrames_id]
  simp [initState]

/-- Witness for C1 at the concrete frame sequence [[10], [20], [30]]. -/
theorem latest_slot_holds_nth_frame_witness :
    (recvFrames initState [[10], [20], [30]]).latest_frame_bytes
        = some ([[10], [20], [30]].getLast (by decide)) ∧
    (recvFrames initState [[10], [20], [30]]).latest_frame_id = 3 :=
  latest_slot_holds_nth_frame [[10], [20], [30]] (by decide)

/-- The operations touching the latest-frame slot: a receive of a new frame
by `ws_stream`, a snapshot read by a `ws_view` viewer, and a read by the
OpenCV display loop.  The two reads copy the slot under the lock and do not
mutate it (the display loop only updates its own local `last_id`). -/
inductive SlotOp where
  | recv (data : Bytes)
  | viewerRead
  | displayRead
deriving Repr, DecidableEq

/-- The effect of each operation on the shared server state (server.py:
lines 62-64 for the receive, 97-99 for the viewer read, 146-150 for the
display read). -/
def applySlotOp (s : ServerState) : SlotOp → ServerState
  | SlotOp.recv d => recvFrame s d
  | SlotOp.viewerRead => s
  | SlotOp.displayRead => s

/-- Running a sequence of slot operations from the initial state. -/
def runSlotOps (ops : List SlotOp) : ServerState :=
  ops.foldl applySlotOp initState

/-- How many of the operations are frame receives. -/
def countRecv (ops : List SlotOp) : Nat :=
  (ops.filter fun o => match o with | SlotOp.recv _ => true | _ => false).length

theorem runSlotOps_id_eq_countRecv (ops : List SlotOp) :
    (runSlotOps ops).latest_frame_id = countRecv ops := by
  suffices h : ∀ (s : ServerState) (l : List SlotOp),
      (l.foldl applySlotOp s).latest_frame_id
        = s.latest_frame_id + countRecv l by
    have := h initState ops
    simpa [runSlotOps, initState] using this
  intro s l
  induction l generalizing s with
  | nil => simp [countRecv]
  | cons o t ih =>
      cases o with
      | recv d =>
          simp only [List.foldl_cons, ih]
          simp [applySlotOp, recvFrame, countRecv]
          omega
      | viewerRead =>
          simp only [List.foldl_cons, ih]
          simp [applySlotOp, countRecv]
      | displayRead =>
          simp only [List.foldl_cons, ih]
          simp [applySlotOp, countRecv]

/-- C4: the latest-frame slot's sequence id starts at 0, is incremented by
exactly 1 on every accepted frame, is left unchanged by viewer and display
reads, is non-decreasing under every operation, and (running any operation
sequence) equals the number of frames accepted so far — so each accepted
frame gets a fresh id that is never reused. -/
theorem sequence_id_monotone_invariant :
    initState.latest_frame_id = 0 ∧
    (∀ (s : ServerState) (d : Bytes),
      (applySlotOp s (SlotOp.recv d)).latest_frame_id = s.latest_frame_id + 1) ∧
    (∀ s : ServerState,
      (applySlotOp s SlotOp.viewerRead).latest_frame_id = s.latest_frame_id) ∧
    (∀ s : ServerState,
      (applySlotOp s SlotOp.displayRead).latest_frame_id = s.latest_frame_id) ∧
    (∀ (s : ServerState) (op : SlotOp),
      s.latest_frame_id ≤ (applySlotOp s op).latest_frame_id) ∧
    (∀ ops : List SlotOp, (runSlotOps ops).latest_frame_id = countRecv ops) := by
  refine ⟨rfl, fun s d => rfl, fun s => rfl, fun s => rfl, ?_, runSlotOps_id_eq_countRecv⟩
  intro s op
  cases op <;> simp [applySlotOp, recvFrame]

/-- C10: after the stream endpoint has processed frames d1..dN, the server's
counters are mutually consistent — the received-message count is N, the
latest frame id is N, and the network byte total is the sum of the payload
lengths — and this consistency is preserved by every iteration of the
receive loop. -/
theorem counters_consistent (ds : List Bytes) :
    ((recvFrames initState ds).recv_total_count = ds.length ∧
     (recvFrames initState ds).latest_frame_id = ds.length ∧
     (recvFrames initState ds).network_total_bytes = (ds.map List.length).sum) ∧
    (∀ (s : ServerState) (d : Bytes),
      (s.recv_total_count = s.latest_frame_id →
        (recvFrame s d).recv_total_count = (recvFrame s d).latest_frame_id)) := by
  constructor
  · refine ⟨?_, ?_, ?_⟩
    · rw [recvFrames_recv_count]; simp [initState]
    · rw [recvFrames_id]; simp [initState]
    · rw [recvFrames_net_bytes]; simp [initState]
  · intro s d h
    simp [recvFrame, h]

/-- Witness for C10's preservation clause at the initial state. -/
theorem counters_consistent_witness :
    (recvFrame initState [5]).recv_total_count
      = (recvFrame initState [5]).latest_frame_id :=
  (counters_consistent []).2 initState [5] (by decide)

/-! ### Client send queue (client.py)

The client pushes each encoded frame into `send_queue : asyncio.Queue`
(capacity `maxsize=4`, client.py line 96) with the non-blocking policy of
lines 173-185: `put_nowait`; on `QueueFull`, `get_nowait` the oldest frame
(exception swallowed), then `put_nowait` once more (exception swallowed,
dropping the new frame).  We model the queue as a list, oldest first, and
the two non-blocking primitives as `Option`-returning functions mirroring
`asyncio.Queue` (`put_nowait` fails exactly when `0 < maxsize ∧ maxsize ≤
qsize`; `get_nowait` fails exactly on an empty queue). -/

/-- The capacity of the client's send queue (client.py line 96). -/
def sendQueueCapacity : Nat := 4

/-- `asyncio.Queue.put_nowait`: `none` models the `QueueFull` exception. -/
def put_nowait (maxsize : Nat) (q : List Bytes) (d : Bytes) :
    Option (List Bytes) :=
  if 0 < maxsize ∧ maxsize ≤ q.length then none else some (q ++ [d])

/-- `asyncio.Queue.get_nowait`: `none` models the `QueueEmpty` exception;
otherwise returns the oldest item and the rest of the queue. -/
def get_nowait (q : List Bytes) : Option (Bytes × List Bytes) :=
  match q with
  | [] => none
  | x :: xs => some (x, xs)

/-- The enqueue policy of client.py lines 173-185: try `put_nowait`; if the
queue is full, dequeue-and-discard the oldest frame and retry the enqueue
exactly once; if the retry also fails, drop the new frame.  All exceptions
are swallowed, so the operation is a total function of the queue. -/
def offer (maxsize : Nat) (q : List Bytes) (d : Bytes) : List Bytes :=
  match put_nowait maxsize q d with
  | some q2 => q2
  | none =>
      let q1 := match get_nowait q with
                | some (_, xs) => xs
                | none => q
      match put_nowait maxsize q1 d with
      | some q2 => q2
      | none => q1

theorem offer_not_full (K : Nat) (q : List Bytes) (d : Bytes)
    (h : q.length < K) : offer K q d = q ++ [d] := by
  simp [offer, put_nowait, Nat.not_le_of_lt h]

theorem offer_full (K : Nat) (q : List Bytes) (d : Bytes)
    (hK : 1 ≤ K) (h : q.length = K) : offer K q d = q.drop 1 ++ [d] := by
  cases q with
  | nil => simp at h; omega
  | cons x xs =>
      have hfull : 0 < K ∧ K ≤ (x :: xs).length := ⟨hK, Nat.le_of_eq h.symm⟩
      have hretry : ¬(0 < K ∧ K ≤ xs.length) := by
        simp only [List.length_cons] at h
        intro hc
        omega
      simp only [offer, put_nowait, get_nowait, if_pos hfull, if_neg hretry]
      simp

theorem offer_eq_drop (K : Nat) (q : List Bytes) (d : Bytes)
    (hK : 1 ≤ K) (hq : q.length ≤ K) :
    offer K q d = (q ++ [d]).drop (q.length + 1 - K) := by
  rcases Nat.lt_or_ge q.length K with h | h
  · rw [offer_not_full K q d h]
    have : q.length + 1 - K = 0 := by omega
    rw [this, List.drop_zero]
  · have hqK : q.length = K := Nat.le_antisymm hq h
    have h1 : (1 : Nat) ≤ q.length := by omega
    have h2 : q.length + 1 - K = 1 := by omega
    rw [offer_full K q d hK hqK, h2, List.drop_append_of_le_length h1]

theorem offer_length (K : Nat) (q : List Bytes) (d : Bytes)
    (hK : 1 ≤ K) (hq : q.length ≤ K) :
    (offer K q d).length = min (q.length + 1) K := by
  rw [offer_eq_drop K q d hK hq, List.length_drop]
  simp
  omega

/-- The suffix characterization of a burst of enqueues: folding `offer`
over a frame list keeps exactly the most recent frames that fit. -/
theorem foldl_offer_eq_drop (K : Nat) (hK : 1 ≤ K) :
    ∀ (ds q : List Bytes), q.length ≤ K →
      List.foldl (offer K) q ds = (q ++ ds).drop (q.length + ds.length - K) := by
  intro ds
  induction ds with
  | nil =>
      intro q hq
      have h0 : q.length - K = 0 := by omega
      simp [h0]
  | cons d t ih =>
      intro q hq
      have hstep : offer K q d = (q ++ [d]).drop (q.length + 1 - K) :=
        offer_eq_drop K q d hK hq
      have hle : (offer K q d).length ≤ K := by
        have := offer_length K q d hK hq
        omega
      rw [List.foldl_cons, ih (offer K q d) hle, hstep]
      have hj : q.length + 1 - K ≤ (q ++ [d]).length := by
        simp only [List.length_append, List.length_singleton]
        omega
      rw [← List.drop_append_of_le_length hj, List.drop_drop]
      have hassoc : (q ++ [d]) ++ t = q ++ d :: t := by simp
      rw [hassoc]
      congr 1
      simp only [List.length_drop, List.length_append, List.length_singleton,
        List.length_cons, List.length_nil]
      omega

/-- C2: the client's enqueue-on-publish is non-blocking and total: with
the queue not full the frame is appended; with the queue full exactly the
single oldest queued frame is dequeued and discarded and the retried
enqueue succeeds, so the new frame is appended; the result never exceeds
the capacity.  (`offer` is a total function — the code swallows both queue
exceptions, so nothing blocks or is raised to the caller; the
retry-fails-drop branch of lines 182-185 is the `none` fallthrough of
`offer`, reachable only if the retried `put_nowait` races, which the
single-writer loop cannot do.) -/
theorem enqueue_nonblocking_drop_oldest (K : Nat) (q : List Bytes) (d : Bytes)
    (hK : 1 ≤ K) (hq : q.length ≤ K) :
    (q.length < K → offer K q d = q ++ [d]) ∧
    (q.length = K → offer K q d = q.drop 1 ++ [d]) ∧
    (offer K q d).length ≤ K := by
  refine ⟨offer_not_full K q d, ?_, ?_⟩
  · intro h
    exact offer_full K q d hK h
  · have := offer_length K q d hK hq
    omega

/-- Witness for C2 at capacity 4 (the client's `maxsize`) with a full
queue. -/
theorem enqueue_nonblocking_drop_oldest_witness :
    (([[1], [2], [3], [4]] : List Bytes).length < 4 →
        offer 4 [[1], [2], [3], [4]] [9] = [[1], [2], [3], [4]] ++ [[9]]) ∧
    (([[1], [2], [3], [4]] : List Bytes).length = 4 →
        offer 4 [[1], [2], [3], [4]] [9]
          = ([[1], [2], [3], [4]] : List Bytes).drop 1 ++ [[9]]) ∧
    (offer 4 [[1], [2], [3], [4]] [9]).length ≤ 4 :=
  enqueue_nonblocking_drop_oldest 4 [[1], [2], [3], [4]] [9]
    (by decide) (by decide)

/-- C3: bursting M > K frames into a queue of capacity K with no
intervening dequeues leaves exactly the K most recently enqueued frames,
in enqueue order. -/
theorem burst_keeps_most_recent (K : Nat) (q ds : List Bytes)
    (hK : 1 ≤ K) (hq : q.length ≤ K) (hM : K < ds.length) :
    List.foldl (offer K) q ds = ds.drop (ds.length - K) ∧
    (List.foldl (offer K) q ds).length = K := by
  have h := foldl_offer_eq_drop K hK ds q hq
  have hsplit : q.length + ds.length - K = q.length + (ds.length - K) := by
    omega
  rw [hsplit] at h
  rw [← List.drop_drop, List.drop_left] at h
  refine ⟨h, ?_⟩
  rw [h, List.length_drop]
  omega

/-- Witness for C3: capacity 2, burst of 3 frames into an empty queue. -/
theorem burst_keeps_most_recent_witness :
    List.foldl (offer 2) [] [[1], [2], [3]] = [[1], [2], [3]].drop 1 ∧
    (List.foldl (offer 2) ([] : List Bytes) [[1], [2], [3]]).length = 2 :=
  burst_keeps_most_recent 2 [] [[1], [2], [3]] (by decide) (by decide)
    (by decide)

/-! ### The `ws_view` polling session (server.py lines 82-120)

Each iteration of the viewer loop sleeps, snapshots the slot under the
lock, skips when no frame exists, and sends the frame only when the frame
id changed, updating `prev_id` only after a successful send; a
`WebSocketDisconnect` or any other exception from the send breaks the
loop.  The nondeterministic outcome of the transport write becomes an
explicit `WriteOutcome` input of the step function. -/

/-- The result of `await websocket.send_bytes(data)` as observed by the
handler: success, a `WebSocketDisconnect`, or any other exception. -/
inductive WriteOutcome where
  | ok
  | disconnect
  | error
deriving Repr, DecidableEq

/-- The local state of one `ws_view` handler: `prev_id` (initially `-1`),
the frames actually delivered to this viewer (with their ids, oldest
first), and whether the polling loop has terminated. -/
structure ViewSession where
  prev_id : Int
  delivered : List (Bytes × Nat)
  closed : Bool
deriving Repr, DecidableEq

/-- A freshly accepted viewer (server.py line 92). -/
def initView : ViewSession := { prev_id := -1, delivered := [], closed := false }

/-- One iteration of the `ws_view` loop (server.py lines 94-113): snapshot
the slot; if no frame was ever uploaded, keep polling; if the frame id is
unchanged, send nothing; otherwise attempt the send, recording the frame
and the new `prev_id` on success and terminating the loop on a disconnect
or any other send error.  A terminated session does nothing. -/
def viewPoll (server : ServerState) (v : ViewSession) (o : WriteOutcome) :
    ViewSession :=
  if v.closed then v
  else
    match slotGet server with
    | (none, _) => v
    | (some data, fid) =>
        if (fid : Int) ≠ v.prev_id then
          match o with
          | WriteOutcome.ok =>
              { v with prev_id := (fid : Int)
                       delivered := v.delivered ++ [(data, fid)] }
          | WriteOutcome.disconnect => { v with closed := true }
          | WriteOutcome.error => { v with closed := true }
        else v

/-- An interleaving event of the running server: either `ws_stream`
receives a frame or the viewer performs one polling iteration with the
given transport-write outcome. -/
inductive Event where
  | recv (data : Bytes)
  | poll (o : WriteOutcome)
deriving Repr, DecidableEq

/-- Shared server state together with one viewer session. -/
structure SysState where
  server : ServerState
  viewer : ViewSession
deriving Repr, DecidableEq

def initSys : SysState := { server := initState, viewer := initView }

def sysStep (s : SysState) : Event → SysState
  | Event.recv d => { s with server := recvFrame s.server d }
  | Event.poll o => { s with viewer := viewPoll s.server s.viewer o }

/-- Running any interleaving of receives and viewer polls. -/
def sysRun (es : List Event) : SysState := es.foldl sysStep initSys

/-- Reachability invariant of the viewer session: delivered ids strictly
increase, `prev_id` is the id of the last delivered frame (`-1` before the
first), and `prev_id` never exceeds the slot's current id. -/
def viewInv (s : SysState) : Prop :=
  List.Chain' (fun a b => a.2 < b.2) s.viewer.delivered ∧
  (∀ x ∈ s.viewer.delivered.getLast?, (x.2 : Int) = s.viewer.prev_id) ∧
  (s.viewer.delivered = [] → s.viewer.prev_id = -1) ∧
  s.viewer.prev_id ≤ (s.server.latest_frame_id : Int)

theorem viewPoll_closed (srv : ServerState) (v : ViewSession)
    (o : WriteOutcome) (h : v.closed = true) : viewPoll srv v o = v := by
  simp [viewPoll, h]

theorem viewPoll_empty (srv : ServerState) (v : ViewSession)
    (o : WriteOutcome) (h : v.closed = false)
    (hb : srv.latest_frame_bytes = none) : viewPoll srv v o = v := by
  simp [viewPoll, slotGet, h, hb]

theorem viewPoll_stale (srv : ServerState) (v : ViewSession)
    (o : WriteOutcome) (data : Bytes) (h : v.closed = false)
    (hb : srv.latest_frame_bytes = some data)
    (heq : (srv.latest_frame_id : Int) = v.prev_id) :
    viewPoll srv v o = v := by
  simp [viewPoll, slotGet, h, hb, heq]

theorem viewPoll_send_ok (srv : ServerState) (v : ViewSession)
    (data : Bytes) (h : v.closed = false)
    (hb : srv.latest_frame_bytes = some data)
    (hne : (srv.latest_frame_id : Int) ≠ v.prev_id) :
    viewPoll srv v WriteOutcome.ok
      = { v with prev_id := (srv.latest_frame_id : Int)
                 delivered := v.delivered
                   ++ [(data, srv.latest_frame_id)] } := by
  simp [viewPoll, slotGet, h, hb, hne]

theorem viewPoll_send_fail (srv : ServerState) (v : ViewSession)
    (o : WriteOutcome) (data : Bytes) (h : v.closed = false)
    (hb : srv.latest_frame_bytes = some data)
    (hne : (srv.latest_frame_id : Int) ≠ v.prev_id)
    (ho : o ≠ WriteOutcome.ok) :
    viewPoll srv v o = { v with closed := true } := by
  cases o with
  | ok => exact absurd rfl ho
  | disconnect => simp [viewPoll, slotGet, h, hb, hne]
  | error => simp [viewPoll, slotGet, h, hb, hne]

theorem viewInv_step (s : SysState) (e : Event) (h : viewInv s) :
    viewInv (sysStep s e) := by
  obtain ⟨hchain, hlast, hnil, hle⟩ := h
  cases e with
  | recv d =>
      refine ⟨hchain, hlast, hnil, ?_⟩
      simp only [sysStep, recvFrame]
      have hstep : ((s.server.latest_frame_id : Int))
          ≤ ((s.server.latest_frame_id + 1 : Nat) : Int) := by
        exact_mod_cast Nat.le_succ _
      exact le_trans hle hstep
  | poll o =>
      show viewInv { s with viewer := viewPoll s.server s.viewer o }
      by_cases hc : s.viewer.closed
      · rw [viewPoll_closed s.server s.viewer o hc]
        exact ⟨hchain, hlast, hnil, hle⟩
      · rw [Bool.not_eq_true] at hc
        cases hb : s.server.latest_frame_bytes with
        | none =>
            rw [viewPoll_empty s.server s.viewer o hc hb]
            exact ⟨hchain, hlast, hnil, hle⟩
        | some data =>
            by_cases hne :
                ((s.server.latest_frame_id : Int)) ≠ s.viewer.prev_id
            · cases o with
              | ok =>
                  rw [viewPoll_send_ok s.server s.viewer data hc hb hne]
                  refine ⟨?_, ?_, ?_, le_refl _⟩
                  · rw [List.chain'_append]
                    refine ⟨hchain, List.chain'_singleton _, ?_⟩
                    intro x hx y hy
                    simp only [List.head?_cons, Option.mem_def,
                      Option.some.injEq] at hy
                    have hx2 := hlast x hx
                    have hlt : (x.2 : Int) < (s.server.latest_frame_id : Int) :=
                      lt_of_le_of_ne (hx2 ▸ hle) (hx2 ▸ (Ne.symm hne))
                    subst hy
                    exact_mod_cast hlt
                  · intro x hx
                    simp only [List.getLast?_append, List.getLast?_singleton,
                      Option.or, Option.mem_def, Option.some.injEq] at hx
                    subst hx
                    rfl
                  · intro hcontra
                    exact absurd (congrArg List.length hcontra) (by simp)
              | disconnect =>
                  rw [viewPoll_send_fail s.server s.viewer _ data hc hb hne
                    (by simp)]
                  exact ⟨hchain, hlast, hnil, hle⟩
              | error =>
                  rw [viewPoll_send_fail s.server s.viewer _ data hc hb hne
                    (by simp)]
                  exact ⟨hchain, hlast, hnil, hle⟩
            · rw [Ne, not_not] at hne
              rw [viewPoll_stale s.server s.viewer o data hc hb hne]
              exact ⟨hchain, hlast, hnil, hle⟩

theorem viewInv_run (es : List Event) : viewInv (sysRun es) := by
  have hinit : viewInv initSys := by
    refine ⟨?_, ?_, ?_, ?_⟩ <;> simp [initSys, initView, initState]
  suffices h : ∀ (l : List Event) (s : SysState),
      viewInv s → viewInv (l.foldl sysStep s) by
    exact h es initSys hinit
  intro l
  induction l with
  | nil => intro s hs; exact hs
  | cons e t ih => intro s hs; exact ih _ (viewInv_step s e hs)

theorem sysRun_concat (es : List Event) (e : Event) :
    sysRun (es ++ [e]) = sysStep (sysRun es) e := by
  simp [sysRun, List.foldl_append]

/-- C5: after any interleaving of frame receives and viewer polls, the
sequence of ids delivered to the viewer is strictly increasing (gaps
possible, never a duplicate or out-of-order id); and when a frame exists
in the slot and the session is live, a successful polling iteration
delivers the current frame exactly when the slot's id differs from the id
of the last frame the viewer sent (`prev_id`), doing nothing at all when
it is unchanged. -/
theorem viewer_sends_iff_id_changed (es : List Event) :
    List.Chain' (fun a b => a.2 < b.2) (sysRun es).viewer.delivered ∧
    (∀ data : Bytes,
      (sysRun es).viewer.closed = false →
      (sysRun es).server.latest_frame_bytes = some data →
      (((sysRun (es ++ [Event.poll WriteOutcome.ok])).viewer.delivered
          = (sysRun es).viewer.delivered
              ++ [(data, (sysRun es).server.latest_frame_id)])
        ↔ ((sysRun es).server.latest_frame_id : Int)
            ≠ (sysRun es).viewer.prev_id) ∧
      (((sysRun es).server.latest_frame_id : Int) = (sysRun es).viewer.prev_id →
        sysRun (es ++ [Event.poll WriteOutcome.ok]) = sysRun es)) := by
  refine ⟨(viewInv_run es).1, ?_⟩
  intro data hc hb
  rw [sysRun_concat]
  constructor
  · constructor
    · intro hgrow
      by_contra heq
      rw [show sysStep (sysRun es) (Event.poll WriteOutcome.ok)
            = { sysRun es with
                viewer := viewPoll (sysRun es).server (sysRun es).viewer
                  WriteOutcome.ok } from rfl,
        viewPoll_stale _ _ _ data hc hb heq] at hgrow
      exact absurd (congrArg List.length hgrow) (by simp)
    · intro hne
      rw [show sysStep (sysRun es) (Event.poll WriteOutcome.ok)
            = { sysRun es with
                viewer := viewPoll (sysRun es).server (sysRun es).viewer
                  WriteOutcome.ok } from rfl,
        viewPoll_send_ok _ _ data hc hb hne]
  · intro heq
    rw [show sysStep (sysRun es) (Event.poll WriteOutcome.ok)
          = { sysRun es with
              viewer := viewPoll (sysRun es).server (sysRun es).viewer
                WriteOutcome.ok } from rfl,
      viewPoll_stale _ _ _ data hc hb heq]

/-- Witness for C5 after a single received frame `[7]`: the slot id 1
differs from the initial `prev_id = -1`, so the poll delivers the frame. -/
theorem viewer_sends_iff_id_changed_witness :
    (sysRun ([Event.recv [7]] ++ [Event.poll WriteOutcome.ok])).viewer.delivered
      = (sysRun [Event.recv [7]]).viewer.delivered
          ++ [([7], (sysRun [Event.recv [7]]).server.latest_frame_id)] :=
  (((viewer_sends_iff_id_changed [Event.recv [7]]).2 [7]
      (by decide) (by decide)).1).mpr (by decide)

/-- C8: reading the latest-frame slot is a total function (it never blocks
and never fails); before any frame has ever been set it yields the explicit
no-frame signal `none`, and in that case a viewer polling iteration sends
nothing and leaves the whole system state unchanged, so the viewer keeps
polling. -/
theorem slot_read_total_empty_skip :
    slotGet initState = (none, 0) ∧
    (∀ (s : SysState) (o : WriteOutcome),
      s.server.latest_frame_bytes = none → sysStep s (Event.poll o) = s) := by
  refine ⟨rfl, ?_⟩
  intro s o hb
  show { s with viewer := viewPoll s.server s.viewer o } = s
  by_cases hc : s.viewer.closed
  · rw [viewPoll_closed s.server s.viewer o hc]
  · rw [Bool.not_eq_true] at hc
    rw [viewPoll_empty s.server s.viewer o hc hb]

/-- Witness for C8 in the initial state, where no frame was ever set. -/
theorem slot_read_total_empty_skip_witness :
    sysStep initSys (Event.poll WriteOutcome.ok) = initSys :=
  slot_read_total_empty_skip.2 initSys WriteOutcome.ok (by decide)

/-! ### Two concurrent viewers: failure containment (C7)

`ws_view` runs once per connected viewer; each handler owns its local
`prev_id`/loop state and only reads the shared slot.  We model the server
with two viewer sessions A and B and arbitrary interleavings, so that a
transport failure of A can be compared against a run where A behaves
differently. -/

inductive Event2 where
  | recv (data : Bytes)
  | pollA (o : WriteOutcome)
  | pollB (o : WriteOutcome)
deriving Repr, DecidableEq

structure Sys2State where
  server : ServerState
  viewerA : ViewSession
  viewerB : ViewSession
deriving Repr, DecidableEq

def initSys2 : Sys2State :=
  { server := initState, viewerA := initView, viewerB := initView }

def sys2Step (s : Sys2State) : Event2 → Sys2State
  | Event2.recv d => { s with server := recvFrame s.server d }
  | Event2.pollA o => { s with viewerA := viewPoll s.server s.viewerA o }
  | Event2.pollB o => { s with viewerB := viewPoll s.server s.viewerB o }

def sys2Run (es : List Event2) : Sys2State := es.foldl sys2Step initSys2

/-- Rewrites the transport-write outcome of every poll of viewer A
(e.g. turning its successful writes into hard failures), leaving frame
receives and viewer B's polls untouched. -/
def mapOutcomeA (f : WriteOutcome → WriteOutcome) : Event2 → Event2
  | Event2.pollA o => Event2.pollA (f o)
  | e => e

theorem sys2_mapOutcomeA (f : WriteOutcome → WriteOutcome) :
    ∀ (es : List Event2) (s t : Sys2State),
      s.server = t.server → s.viewerB = t.viewerB →
      ((es.map (mapOutcomeA f)).foldl sys2Step s).server
          = (es.foldl sys2Step t).server ∧
      ((es.map (mapOutcomeA f)).foldl sys2Step s).viewerB
          = (es.foldl sys2Step t).viewerB := by
  intro es
  induction es with
  | nil => intro s t h1 h2; exact ⟨h1, h2⟩
  | cons e es ih =>
      intro s t h1 h2
      cases e with
      | recv d =>
          exact ih _ _ (by simp [mapOutcomeA, sys2Step, h1])
            (by simp [mapOutcomeA, sys2Step, h2])
      | pollA o =>
          exact ih _ _ (by simp [mapOutcomeA, sys2Step, h1])
            (by simp [mapOutcomeA, sys2Step, h2])
      | pollB o =>
          exact ih _ _ (by simp [mapOutcomeA, sys2Step, h1])
            (by simp [mapOutcomeA, sys2Step, h1, h2])

/-- C7: a transport write failure or disconnect of one viewer is contained
to that viewer: the failing poll terminates only that viewer's loop (the
handler absorbs the exception — `viewPoll` is total and a closed session
stays inert), the shared frame-receiving state is untouched by any viewer
poll, and viewer B's entire run and the server state are unchanged under
arbitrary rewriting of viewer A's write outcomes. -/
theorem consumer_failure_contained :
    (∀ (srv : ServerState) (v : ViewSession) (data : Bytes) (o : WriteOutcome),
      v.closed = false → srv.latest_frame_bytes = some data →
      (srv.latest_frame_id : Int) ≠ v.prev_id → o ≠ WriteOutcome.ok →
      viewPoll srv v o = { v with closed := true }) ∧
    (∀ (srv : ServerState) (v : ViewSession) (o : WriteOutcome),
      v.closed = true → viewPoll srv v o = v) ∧
    (∀ (s : Sys2State) (o : WriteOutcome),
      (sys2Step s (Event2.pollA o)).server = s.server ∧
      (sys2Step s (Event2.pollA o)).viewerB = s.viewerB) ∧
    (∀ (es : List Event2) (f : WriteOutcome → WriteOutcome),
      (sys2Run (es.map (mapOutcomeA f))).server = (sys2Run es).server ∧
      (sys2Run (es.map (mapOutcomeA f))).viewerB = (sys2Run es).viewerB) := by
  refine ⟨?_, viewPoll_closed, ?_, ?_⟩
  · intro srv v data o hc hb hne ho
    exact viewPoll_send_fail srv v o data hc hb hne ho
  · intro s o
    exact ⟨rfl, rfl⟩
  · intro es f
    exact sys2_mapOutcomeA f es initSys2 initSys2 rfl rfl

/-- Witness for C7: after one received frame, viewer A's failing write
closes only A; and mapping all of A's outcomes to failures leaves the
server state and viewer B's session of a concrete run unchanged. -/
theorem consumer_failure_contained_witness :
    viewPoll (recvFrame initState [7]) initView WriteOutcome.error
      = { initView with closed := true } ∧
    ((sys2Run ([Event2.recv [7], Event2.pollA WriteOutcome.ok,
          Event2.pollB WriteOutcome.ok].map
            (mapOutcomeA fun _ => WriteOutcome.error))).server
        = (sys2Run [Event2.recv [7], Event2.pollA WriteOutcome.ok,
            Event2.pollB WriteOutcome.ok]).server ∧
      (sys2Run ([Event2.recv [7], Event2.pollA WriteOutcome.ok,
          Event2.pollB WriteOutcome.ok].map
            (mapOutcomeA fun _ => WriteOutcome.error))).viewerB
        = (sys2Run [Event2.recv [7], Event2.pollA WriteOutcome.ok,
            Event2.pollB WriteOutcome.ok]).viewerB) :=
  ⟨consumer_failure_contained.1 (recvFrame initState [7]) initView [7]
      WriteOutcome.error (by decide) (by decide) (by decide) (by decide),
   consumer_failure_contained.2.2.2
      [Event2.recv [7], Event2.pollA WriteOutcome.ok,
        Event2.pollB WriteOutcome.ok] (fun _ => WriteOutcome.error)⟩

/-! ### ConsumerRegistry (C9) -/

/-- Modelled from the spec: the `ConsumerRegistry` of §4.2 — a mapping
from consumer identity to that consumer's pending frame queue, each id
appearing at most once.  No registry data structure exists under src/
(the FastAPI transport layer tracks connections implicitly), so the
structure and its `detach` operation follow the spec's words. -/
structure ConsumerRegistry where
  consumers : List (Nat × List Bytes)
deriving Repr, DecidableEq

/-- Modelled from the spec: `detach(id)` "idempotently removes a consumer
and releases its queue"; removing a non-existent id is a no-op, not an
error. -/
def detach (r : ConsumerRegistry) (cid : Nat) : ConsumerRegistry :=
  { consumers := r.consumers.filter (fun c => c.1 ≠ cid) }

/-- Whether a consumer with the given identity is currently attached. -/
def hasConsumer (r : ConsumerRegistry) (cid : Nat) : Bool :=
  r.consumers.any (fun c => c.1 = cid)

theorem detach_filter_length (cid : Nat) :
    ∀ l : List (Nat × List Bytes), (l.map Prod.fst).Nodup →
      (∃ c ∈ l, c.1 = cid) →
      (l.filter (fun c => c.1 ≠ cid)).length + 1 = l.length := by
  intro l
  induction l with
  | nil => intro _ h; simp at h
  | cons c t ih =>
      intro hnodup hmem
      simp only [List.map_cons, List.nodup_cons] at hnodup
      obtain ⟨hnotin, hnd⟩ := hnodup
      by_cases hc : c.1 = cid
      · have htkeep : t.filter (fun x => x.1 ≠ cid) = t := by
          rw [List.filter_eq_self]
          intro a ha
          simp only [ne_eq, decide_not, Bool.not_eq_eq_eq_not, Bool.not_true,
            decide_eq_false_iff_not]
          intro haeq
          exact hnotin (by
            rw [← hc] at haeq
            exact haeq ▸ List.mem_map_of_mem Prod.fst ha)
        simp only [ne_eq, decide_not] at htkeep
        simp [List.filter_cons, hc, htkeep]
      · obtain ⟨x, hx, hxeq⟩ := hmem
        rcases List.mem_cons.mp hx with hxc | hxt
        · exact absurd (hxc ▸ hxeq) hc
        · have := ih hnd ⟨x, hxt, hxeq⟩
          simp only [List.filter_cons, List.length_cons]
          have hkeep : (decide (c.1 ≠ cid)) = true := by
            simp [hc]
          rw [hkeep]
          simp only [if_true, List.length_cons]
          omega

/-- C9: `detach` is idempotent — removing an id that is not attached is a
no-op (not an error), detaching twice equals detaching once, and when the
id is attached (ids unique) exactly one consumer is removed. -/
theorem detach_idempotent :
    (∀ (r : ConsumerRegistry) (cid : Nat),
      hasConsumer r cid = false → detach r cid = r) ∧
    (∀ (r : ConsumerRegistry) (cid : Nat),
      detach (detach r cid) cid = detach r cid) ∧
    (∀ (r : ConsumerRegistry) (cid : Nat),
      (r.consumers.map Prod.fst).Nodup → hasConsumer r cid = true →
      (detach r cid).consumers.length + 1 = r.consumers.length) := by
  refine ⟨?_, ?_, ?_⟩
  · intro r cid h
    simp only [hasConsumer, List.any_eq_false] at h
    have : r.consumers.filter (fun c => c.1 ≠ cid) = r.consumers := by
      rw [List.filter_eq_self]
      intro a ha
      have := h a ha
      simpa using this
    simp only [detach, this]
  · intro r cid
    simp [detach, List.filter_filter]
  · intro r cid hnodup hhas
    simp only [hasConsumer, List.any_eq_true] at hhas
    obtain ⟨x, hx, hxeq⟩ := hhas
    exact detach_filter_length cid r.consumers hnodup
      ⟨x, hx, by simpa using hxeq⟩

/-- Witness for C9 on a concrete two-consumer registry: detaching the
absent id 3 is a no-op, and detaching the attached id 2 removes exactly
one consumer. -/
theorem detach_idempotent_witness :
    detach { consumers := [(1, []), (2, [[5]])] } 3
        = { consumers := [(1, []), (2, [[5]])] } ∧
    (detach { consumers := [(1, []), (2, [[5]])] } 2).consumers.length + 1
        = 2 :=
  ⟨detach_idempotent.1 { consumers := [(1, []), (2, [[5]])] } 3 (by decide),
   detach_idempotent.2.2 { consumers := [(1, []), (2, [[5]])] } 2
      (by decide) (by decide)⟩

end FrameRelay
